import Mathlib

/-!
Shallow embedding of the dependency-acquisition core in
`compiler-cli/src/dependencies.rs`.

Modelling conventions:

* `HashMap<String, V>` is modelled as an association list `List (Name × V)`;
  real hash maps have no duplicate keys, so theorems that depend on map
  semantics carry a `Nodup`-keys hypothesis.  Rust's `HashMap::eq`
  (`self.len() == other.len() && all entries found in other`) is embedded
  verbatim as `hashMapEq`.
* `hexpm::version::Version` and `hexpm::version::Range` are external,
  out-of-scope types (the spec excludes semantic-version parsing and
  comparison); they are modelled as opaque wrappers around their canonical
  string rendering, so `Version` equality coincides with equality of the
  rendering, exactly as for the external type whose `Display` is injective.
* The filesystem is an explicit `DiskState`.  A file on disk is modelled by
  what the TOML parser would make of its contents: `none` means the file is
  absent, `some (Except.error e)` means present but malformed (the parser
  fails with message `e`), `some (Except.ok v)` means present and parsing
  to `v`.  Writing stores the parsed-back value.
* Effectful externals (`crate::config::root_config`,
  `hex::resolve_versions` with its `PackageFetcher`, and
  `hex::Downloader::download_hex_packages`) live outside this file's source
  and are modelled as fields of a `World` record; the acquisition batch is
  a single fallible operation, matching the all-or-nothing batch semantics
  the spec gives it (any package failure fails the batch).
* Fallible Rust functions returning `Result<T>` become
  `Except Error T`; state-mutating fallible code returns
  `DiskState × Except Error T` so the disk state is observable even when
  the function fails, as it is for a real process.
-/

abbrev Name := String

/-- External `hexpm::version::Version`, modelled by its canonical rendering. -/
structure Version where
  text : String
deriving DecidableEq, Repr

/-- `Version::to_string()` (the `Display` rendering of the external type). -/
def versionToString (v : Version) : String := v.text

/-- External `hexpm::version::Range`, modelled by its constraint string. -/
structure Range where
  constraint : String
deriving DecidableEq, Repr

/-- `gleam_core::error::FileIoAction` variants used by this module. -/
inductive FileIoAction
  | parse
  | read
  | delete
deriving DecidableEq, Repr

/-- `gleam_core::error::FileKind` variants used by this module. -/
inductive FileKind
  | file
  | directory
deriving DecidableEq, Repr

/-- `gleam_core::Error`, restricted to the shapes this module constructs:
`Error::FileIo { action, kind, path, err }` plus an opaque catch-all for
errors produced by the external collaborators. -/
inductive Error
  | fileIo (action : FileIoAction) (kind : FileKind) (path : String) (err : Option String)
  | other (message : String)
deriving DecidableEq, Repr

/-- `gleam_core::build::Mode`; only `Mode::Dev` is used by `download`. -/
inductive Mode
  | dev
deriving DecidableEq, Repr

/-- `struct Manifest { requirements, packages }`. -/
structure Manifest where
  requirements : List (Name × Range)
  packages : List (Name × Version)
deriving DecidableEq, Repr

/-- `struct LocalPackages { packages }`. -/
structure LocalPackages where
  packages : List (Name × Version)
deriving DecidableEq, Repr

deriving instance DecidableEq for Except

/-- `gleam_core::config::PackageConfig`, restricted to what this module
reads: the project name and the (fallible) `all_dependencies()` result. -/
structure PackageConfig where
  name : String
  allDeps : Except Error (List (Name × Range))
deriving DecidableEq

/-- `PackageConfig::all_dependencies`. -/
def PackageConfig.all_dependencies (config : PackageConfig) :
    Except Error (List (Name × Range)) :=
  config.allDeps

/-- `paths::manifest_path()`: the fixed project-relative manifest path. -/
def manifest_path : String := "manifest.toml"

/-- `paths::packages_toml()`: the fixed path of the local package ledger. -/
def packages_toml : String := "packages.toml"

/-- Modelled from the spec: `gleam_core`'s `paths::build_deps_package`
(declared outside `src/`), the on-disk directory of a locally materialized
dependency.  Per its call in `remove_extra_packages` it receives the
package name only, so the path is a function of the name alone. -/
def build_deps_package (package : String) : String :=
  "build/packages/" ++ package

/-- The observable filesystem: the two persisted record files, the set of
existing build-deps package directories, and (to model the environment)
the directories whose deletion would fail. -/
structure DiskState where
  manifestFile : Option (Except String Manifest)
  ledgerFile : Option (Except String LocalPackages)
  dirs : List String
  failingDeletes : List String
deriving DecidableEq, Repr

/-- Modelled from the spec: `crate::fs::delete_dir` (declared outside
`src/`), a fallible directory deletion.  Deleting a directory in
`failingDeletes` fails with a file-IO error and leaves the disk unchanged;
otherwise the directory is removed. -/
def delete_dir (d : DiskState) (path : String) : Except Error DiskState :=
  if path ∈ d.failingDeletes then
    Except.error (Error.fileIo FileIoAction.delete FileKind.directory path none)
  else
    Except.ok { d with dirs := d.dirs.filter (fun q => q ≠ path) }

/-- Rust's `HashMap::eq`:
`self.len() == other.len() && self.iter().all(|(k, v)| other.get(k) == Some(v))`. -/
def hashMapEq {β : Type} [DecidableEq β] (a b : List (Name × β)) : Bool :=
  a.length == b.length && a.all (fun p => b.lookup p.1 == some p.2)

/-- `LocalPackages::extra_local_packages`: the pairs of the ledger whose
name is not mapped to that exact version by the manifest, each rendered
with `to_string()`.  The source's push-loop is the filter-map below. -/
def LocalPackages.extra_local_packages (l : LocalPackages) (manifest : Manifest) :
    List (Name × String) :=
  (l.packages.filter (fun p => manifest.packages.lookup p.1 != some p.2)).map
    (fun p => (p.1, versionToString p.2))

/-- `Manifest::read_from_disc`: read the manifest file, surfacing a parse
failure as `Error::FileIo { action: Parse, kind: File, path, err }`.
Reading an absent file fails at the `crate::fs::read` step. -/
def Manifest.read_from_disc (d : DiskState) : Except Error Manifest :=
  match d.manifestFile with
  | none =>
      Except.error (Error.fileIo FileIoAction.read FileKind.file manifest_path none)
  | some (Except.error e) =>
      Except.error (Error.fileIo FileIoAction.parse FileKind.file manifest_path (some e))
  | some (Except.ok manifest) => Except.ok manifest

/-- `Manifest::write_to_disc`: serialize the manifest to its fixed path
(the model stores the value the file would parse back to). -/
def Manifest.write_to_disc (manifest : Manifest) (d : DiskState) : DiskState :=
  { d with manifestFile := some (Except.ok manifest) }

/-- `LocalPackages::read`: `Ok(None)` when the ledger file does not exist,
a parse error when it exists but is malformed, `Ok(Some _)` otherwise. -/
def LocalPackages.read (d : DiskState) : Except Error (Option LocalPackages) :=
  match d.ledgerFile with
  | none => Except.ok none
  | some (Except.error e) =>
      Except.error (Error.fileIo FileIoAction.parse FileKind.file packages_toml (some e))
  | some (Except.ok l) => Except.ok (some l)

/-- `LocalPackages::write_to_disc`. -/
def LocalPackages.write_to_disc (l : LocalPackages) (d : DiskState) : DiskState :=
  { d with ledgerFile := some (Except.ok l) }

/-- `LocalPackages::from_manifest`: keep just the `packages` mapping. -/
def LocalPackages.from_manifest (manifest : Manifest) : LocalPackages :=
  { packages := manifest.packages }

/-- The `for (package, version) in extra.extra_local_packages(manifest)`
loop of `remove_extra_packages`: delete the directory of each stale entry
when it exists, propagating any deletion failure with `?`. -/
def remove_extra_packages_loop :
    DiskState → List (Name × String) → DiskState × Except Error Unit
  | d, [] => (d, Except.ok ())
  | d, (package, _version) :: rest =>
    if build_deps_package package ∈ d.dirs then
      match delete_dir d (build_deps_package package) with
      | Except.error e => (d, Except.error e)
      | Except.ok d2 => remove_extra_packages_loop d2 rest
    else
      remove_extra_packages_loop d rest

/-- `remove_extra_packages`: read the ledger (absent ledger means nothing
to do), then delete each stale package directory. -/
def remove_extra_packages (d : DiskState) (manifest : Manifest) :
    DiskState × Except Error Unit :=
  match LocalPackages.read d with
  | Except.error e => (d, Except.error e)
  | Except.ok none => (d, Except.ok ())
  | Except.ok (some extra) =>
      remove_extra_packages_loop d (extra.extra_local_packages manifest)

/-- The effectful externals of `download`, as an explicit environment:
`crate::config::root_config()`, `hex::resolve_versions` (the external
constraint solver driven through `PackageFetcher`), and
`hex::Downloader::download_hex_packages` (the acquisition batch, which
fails as a whole if any package fails and otherwise returns the count of
newly fetched packages). -/
structure World where
  rootConfig : Except Error PackageConfig
  resolveVersions : Mode → PackageConfig → Except Error (List (Name × Version))
  downloadHexPackages : List (Name × Version) → String → Except Error Nat

/-- `resolve_versions`: run the external solver, then pair its output with
the freshly computed requirement set (evaluation order as in the source:
`packages` first, then `requirements`). -/
def resolve_versions (w : World) (mode : Mode) (config : PackageConfig) :
    Except Error Manifest :=
  match w.resolveVersions mode config with
  | Except.error e => Except.error e
  | Except.ok packages =>
    match config.all_dependencies with
    | Except.error e => Except.error e
    | Except.ok requirements =>
        Except.ok { requirements := requirements, packages := packages }

/-- `get_manifest`: resolve anew when no manifest file exists; otherwise
read it (parse failure propagates), compare its `requirements` to
`config.all_dependencies()` with `HashMap::eq`, reuse on equality and
re-resolve otherwise. -/
def get_manifest (w : World) (d : DiskState) (mode : Mode) (config : PackageConfig) :
    Except Error Manifest :=
  match d.manifestFile with
  | none => resolve_versions w mode config
  | some _ =>
    match Manifest.read_from_disc d with
    | Except.error e => Except.error e
    | Except.ok manifest =>
      match config.all_dependencies with
      | Except.error e => Except.error e
      | Except.ok current =>
        if hashMapEq manifest.requirements current then Except.ok manifest
        else resolve_versions w mode config

/-- `download`: read the config, decide on a manifest, prune stale
packages, run the acquisition batch, and only then persist the manifest
and the ledger derived from it.  The returned `DiskState` is the disk
after the command, whether it succeeded or failed. -/
def download (w : World) (d : DiskState) : DiskState × Except Error Nat :=
  match w.rootConfig with
  | Except.error e => (d, Except.error e)
  | Except.ok config =>
    match get_manifest w d Mode.dev config with
    | Except.error e => (d, Except.error e)
    | Except.ok manifest =>
      match remove_extra_packages d manifest with
      | (d2, Except.error e) => (d2, Except.error e)
      | (d2, Except.ok ()) =>
        match w.downloadHexPackages manifest.packages config.name with
        | Except.error e => (d2, Except.error e)
        | Except.ok count =>
          let d3 := Manifest.write_to_disc manifest d2
          let d4 := LocalPackages.write_to_disc (LocalPackages.from_manifest manifest) d3
          (d4, Except.ok count)

/-! ### Concrete fixtures

Small concrete states used to instantiate the theorems below on closed
inputs (the ledger/manifest pair mirrors the source's own unit test). -/

def specLedger : LocalPackages :=
  ⟨[("local1", ⟨"1.0.0"⟩), ("local2", ⟨"2.0.0"⟩), ("local3", ⟨"3.0.0"⟩)]⟩

def specManifest : Manifest :=
  ⟨[], [("local1", ⟨"1.0.0"⟩), ("local2", ⟨"3.0.0"⟩)]⟩

def emptyManifest : Manifest := ⟨[], []⟩

def cleanDisk : DiskState := ⟨none, none, [], []⟩

def staleDisk : DiskState :=
  ⟨none, some (Except.ok ⟨[("aaa", ⟨"1.0.0"⟩), ("bbb", ⟨"1.0.0"⟩)]⟩),
    [build_deps_package "aaa", build_deps_package "bbb"],
    [build_deps_package "aaa"]⟩

def localTwoDisk : DiskState :=
  ⟨none, some (Except.ok ⟨[("local2", ⟨"2.0.0"⟩)]⟩), [build_deps_package "local2"], []⟩

def localTwoManifest : Manifest := ⟨[], [("local2", ⟨"3.0.0"⟩)]⟩

def badManifestDisk : DiskState := ⟨some (Except.error "unexpected eof"), none, [], []⟩

def badLedgerDisk : DiskState := ⟨none, some (Except.error "unexpected eof"), [], []⟩

def demoReqs : List (Name × Range) := [("local1", ⟨">= 1.0.0"⟩)]

def demoStored : Manifest := ⟨demoReqs, [("local1", ⟨"1.0.0"⟩)]⟩

def storedDisk : DiskState := ⟨some (Except.ok demoStored), none, [], []⟩

def matchingConfig : PackageConfig := ⟨"app", Except.ok demoReqs⟩

def changedConfig : PackageConfig := ⟨"app", Except.ok []⟩

def idleWorld : World :=
  ⟨Except.ok matchingConfig, fun _ _ => Except.ok [], fun _ _ => Except.ok 0⟩

def failingDownloadWorld : World :=
  ⟨Except.ok matchingConfig, fun _ _ => Except.ok [],
    fun _ _ => Except.error (Error.other "download failed")⟩

def successWorld : World :=
  ⟨Except.ok matchingConfig, fun _ _ => Except.ok [("local1", ⟨"1.0.0"⟩)],
    fun _ _ => Except.ok 1⟩

/-! ### Association-list lemmas

`HashMap<String, V>` is embedded as `List (Name × V)`; these lemmas relate
`List.lookup` membership to map semantics and characterize the embedded
`HashMap::eq` on duplicate-free key lists. -/

theorem lookup_mem {β : Type} {a : List (Name × β)} {k : Name} {v : β}
    (h : a.lookup k = some v) : (k, v) ∈ a := by
  induction a with
  | nil => simp [List.lookup] at h
  | cons p rest ih =>
    obtain ⟨k2, v2⟩ := p
    by_cases hk : k = k2
    · subst hk
      rw [List.lookup_cons, beq_self_eq_true] at h
      simp only [Option.some.injEq] at h
      subst h
      exact List.mem_cons_self _ _
    · rw [List.lookup_cons, beq_eq_false_iff_ne.mpr hk] at h
      exact List.mem_cons_of_mem _ (ih h)

theorem lookup_eq_none_iff {β : Type} {a : List (Name × β)} {k : Name} :
    a.lookup k = none ↔ k ∉ a.map Prod.fst := by
  induction a with
  | nil => simp [List.lookup]
  | cons p rest ih =>
    obtain ⟨k2, v2⟩ := p
    by_cases hk : k = k2
    · subst hk
      rw [List.lookup_cons, beq_self_eq_true]
      simp
    · rw [List.lookup_cons, beq_eq_false_iff_ne.mpr hk]
      simp [hk, ih]

theorem lookup_eq_some_of_mem {β : Type} {a : List (Name × β)} {k : Name} {v : β}
    (nd : (a.map Prod.fst).Nodup) (h : (k, v) ∈ a) : a.lookup k = some v := by
  induction a with
  | nil => simp at h
  | cons p rest ih =>
    obtain ⟨k2, v2⟩ := p
    rw [List.map_cons, List.nodup_cons] at nd
    rcases List.mem_cons.mp h with heq | hmem
    · obtain ⟨rfl, rfl⟩ := Prod.mk.injEq .. ▸ heq
      rw [List.lookup_cons, beq_self_eq_true]
    · by_cases hk : k = k2
      · subst hk
        exact absurd (List.mem_map_of_mem Prod.fst hmem) nd.1
      · rw [List.lookup_cons, beq_eq_false_iff_ne.mpr hk]
        exact ih nd.2 hmem

theorem hashMapEq_eq_true_iff {β : Type} [DecidableEq β] {a b : List (Name × β)}
    (nda : (a.map Prod.fst).Nodup) (ndb : (b.map Prod.fst).Nodup) :
    hashMapEq a b = true ↔ ∀ k, a.lookup k = b.lookup k := by
  constructor
  · intro h k
    rw [hashMapEq, Bool.and_eq_true, List.all_eq_true] at h
    obtain ⟨hlen, hall⟩ := h
    replace hlen : a.length = b.length := by simpa using hlen
    have hfound : ∀ p ∈ a, b.lookup p.1 = some p.2 := by
      intro p hp
      simpa using hall p hp
    cases hva : a.lookup k with
    | some v =>
      have hmem := lookup_mem hva
      exact (hfound (k, v) hmem).symm
    | none =>
      have hka : k ∉ a.map Prod.fst := lookup_eq_none_iff.mp hva
      have hsub : a.map Prod.fst ⊆ b.map Prod.fst := by
        intro j hj
        obtain ⟨p, hp, rfl⟩ := List.mem_map.mp hj
        exact List.mem_map_of_mem Prod.fst (lookup_mem (hfound p hp))
      have hlenb : (b.map Prod.fst).length ≤ (a.map Prod.fst).length := by
        simp [hlen]
      have hperm := (List.subperm_of_subset nda hsub).perm_of_length_le hlenb
      have hkb : k ∉ b.map Prod.fst := fun hkb => hka (hperm.mem_iff.mpr hkb)
      rw [lookup_eq_none_iff.mpr hkb]
  · intro h
    have hkeys : (a.map Prod.fst).Perm (b.map Prod.fst) := by
      rw [List.perm_ext_iff_of_nodup nda ndb]
      intro j
      constructor
      · intro hj
        by_contra hjb
        have := lookup_eq_none_iff.mpr hjb
        rw [← h j, lookup_eq_none_iff] at this
        exact this hj
      · intro hj
        by_contra hja
        have := lookup_eq_none_iff.mpr hja
        rw [h j, lookup_eq_none_iff] at this
        exact this hj
    have hlen : a.length = b.length := by
      have := hkeys.length_eq
      simpa using this
    rw [hashMapEq, Bool.and_eq_true, List.all_eq_true]
    refine ⟨by simp [hlen], ?_⟩
    intro p hp
    have : a.lookup p.1 = some p.2 := lookup_eq_some_of_mem nda hp
    rw [h p.1] at this
    simp [this]

/-! ### State-preservation lemmas for pruning -/

theorem remove_extra_packages_loop_files (d : DiskState) (l : List (Name × String)) :
    (remove_extra_packages_loop d l).1.manifestFile = d.manifestFile ∧
    (remove_extra_packages_loop d l).1.ledgerFile = d.ledgerFile := by
  induction l generalizing d with
  | nil => simp [remove_extra_packages_loop]
  | cons p rest ih =>
    obtain ⟨package, version⟩ := p
    by_cases hdir : build_deps_package package ∈ d.dirs
    · by_cases hfail : build_deps_package package ∈ d.failingDeletes
      · simp [remove_extra_packages_loop, hdir, delete_dir, hfail]
      · simpa [remove_extra_packages_loop, hdir, delete_dir, hfail] using
          ih { d with dirs := d.dirs.filter (fun q => q ≠ build_deps_package package) }
    · simpa [remove_extra_packages_loop, hdir] using ih d

theorem remove_extra_packages_files (d : DiskState) (manifest : Manifest) :
    (remove_extra_packages d manifest).1.manifestFile = d.manifestFile ∧
    (remove_extra_packages d manifest).1.ledgerFile = d.ledgerFile := by
  unfold remove_extra_packages
  cases h : LocalPackages.read d with
  | error e => simp
  | ok extra =>
    cases extra with
    | none => simp
    | some extra => simpa using remove_extra_packages_loop_files d _

/-! ### Claim theorems -/

/-- C1: `extra_local_packages` returns exactly the set of pairs `(n, v)` of
the ledger such that the manifest does not map `n` to `v` (including `n`
absent), and no others — stated as a membership characterization, with the
version rendered by `to_string` as in the source — and the result is
independent of iteration order: permuting the ledger's entries permutes
the result, leaving the underlying set unchanged. -/
theorem extra_local_packages_set_difference :
    (∀ (L : LocalPackages) (M : Manifest) (n : Name) (v : Version),
        (n, versionToString v) ∈ L.extra_local_packages M ↔
          ((n, v) ∈ L.packages ∧ M.packages.lookup n ≠ some v))
    ∧ (∀ (L₁ L₂ : LocalPackages) (M : Manifest),
        L₁.packages.Perm L₂.packages →
        (L₁.extra_local_packages M).Perm (L₂.extra_local_packages M)) := by
  constructor
  · intro L M n v
    unfold LocalPackages.extra_local_packages
    rw [List.mem_map]
    constructor
    · rintro ⟨⟨pn, pv⟩, hp, heq⟩
      rw [List.mem_filter] at hp
      simp only [Prod.mk.injEq] at heq
      obtain ⟨rfl, htext⟩ := heq
      have hv : pv = v := by
        cases pv
        cases v
        simpa [versionToString] using htext
      subst hv
      refine ⟨hp.1, ?_⟩
      simpa [bne_iff_ne] using hp.2
    · rintro ⟨hmem, hne⟩
      refine ⟨(n, v), List.mem_filter.mpr ⟨hmem, ?_⟩, rfl⟩
      simpa [bne_iff_ne] using hne
  · intro L₁ L₂ M hperm
    exact (hperm.filter _).map _

/-- C1 witness: the source's own example — ledger
`{local1 ↦ 1.0.0, local2 ↦ 2.0.0, local3 ↦ 3.0.0}` against manifest
`{local1 ↦ 1.0.0, local2 ↦ 3.0.0}` — contains `(local2, 2.0.0)` among the
stale pairs, and reversing the ledger permutes the result. -/
theorem extra_local_packages_set_difference_witness :
    ("local2", "2.0.0") ∈ specLedger.extra_local_packages specManifest
    ∧ ((LocalPackages.mk specLedger.packages.reverse).extra_local_packages
        specManifest).Perm (specLedger.extra_local_packages specManifest) := by
  constructor
  · exact (extra_local_packages_set_difference.1 specLedger specManifest "local2"
      ⟨"2.0.0"⟩).mpr ⟨by decide, by decide⟩
  · exact extra_local_packages_set_difference.2 _ specLedger specManifest (by decide)

/-- C2 counterexample: with two stale packages `aaa` and `bbb` whose
directories both exist and where deleting `aaa`'s directory fails, the
pruning returns an error (so the command aborts: `download` propagates it
with `?`) and `bbb`'s directory is still present — the failure both aborts
the run and prevents the remaining deletion, contradicting the claim. -/
theorem prune_failure_nonfatal_counterexample :
    (remove_extra_packages staleDisk emptyManifest).2 ≠ Except.ok ()
    ∧ build_deps_package "bbb" ∈ (remove_extra_packages staleDisk emptyManifest).1.dirs := by
  decide

/-- C2 (amended): a failure to delete a stale package directory is fatal:
`fs::delete_dir(&path)?` propagates the error, which aborts the pruning
loop immediately (no later stale directory is deleted) and, through
`remove_extra_packages(&manifest)?` in `download`, aborts the whole
command. -/
theorem prune_failure_fatal :
    (∀ (d : DiskState) (package : Name) (version : String)
        (rest : List (Name × String)),
        build_deps_package package ∈ d.dirs →
        build_deps_package package ∈ d.failingDeletes →
        remove_extra_packages_loop d ((package, version) :: rest) =
          (d, Except.error (Error.fileIo FileIoAction.delete FileKind.directory
            (build_deps_package package) none)))
    ∧ (∀ (w : World) (d d2 : DiskState) (config : PackageConfig)
        (manifest : Manifest) (e : Error),
        w.rootConfig = Except.ok config →
        get_manifest w d Mode.dev config = Except.ok manifest →
        remove_extra_packages d manifest = (d2, Except.error e) →
        download w d = (d2, Except.error e)) := by
  constructor
  · intro d package version rest hdir hfail
    simp [remove_extra_packages_loop, hdir, delete_dir, hfail]
  · intro w d d2 config manifest e hcfg hman hrem
    simp [download, hcfg, hman, hrem]

/-- C2 witness: the fatal-deletion shape instantiated on `staleDisk`: the
first stale entry's directory exists and its deletion fails, so the loop
stops at once with the file-IO error. -/
theorem prune_failure_fatal_witness :
    remove_extra_packages_loop staleDisk [("aaa", "1.0.0"), ("bbb", "1.0.0")] =
      (staleDisk, Except.error (Error.fileIo FileIoAction.delete FileKind.directory
        (build_deps_package "aaa") none)) :=
  prune_failure_fatal.1 staleDisk "aaa" "1.0.0" [("bbb", "1.0.0")]
    (by decide) (by decide)

/-- C3: all-or-nothing persistence — whenever `download` fails (in
particular when the acquisition batch fails for any package), the manifest
file and the ledger file are left exactly as they were; by the structure
of `download`, both writes are sequenced strictly after the acquisition
call has returned successfully. -/
theorem download_all_or_nothing :
    ∀ (w : World) (d : DiskState) (e : Error),
      (download w d).2 = Except.error e →
      (download w d).1.manifestFile = d.manifestFile ∧
      (download w d).1.ledgerFile = d.ledgerFile := by
  intro w d e h
  unfold download at h ⊢
  cases hcfg : w.rootConfig with
  | error e2 => simp [hcfg]
  | ok config =>
    cases hman : get_manifest w d Mode.dev config with
    | error e2 => simp [hcfg, hman]
    | ok manifest =>
      obtain ⟨hmf, hlf⟩ := remove_extra_packages_files d manifest
      rcases hrem : remove_extra_packages d manifest with ⟨d2, r⟩
      rw [hrem] at hmf hlf
      cases r with
      | error e2 => simp [hcfg, hman, hrem]; exact ⟨hmf, hlf⟩
      | ok u =>
        cases u
        cases hdl : w.downloadHexPackages manifest.packages config.name with
        | error e2 => simp [hcfg, hman, hrem, hdl]; exact ⟨hmf, hlf⟩
        | ok count =>
          rw [hcfg] at h
          simp [hman, hrem, hdl] at h

/-- C3 witness: on an empty disk with a world whose acquisition batch
fails, `download` fails and both record files are untouched. -/
theorem download_all_or_nothing_witness :
    (download failingDownloadWorld cleanDisk).1.manifestFile = cleanDisk.manifestFile ∧
    (download failingDownloadWorld cleanDisk).1.ledgerFile = cleanDisk.ledgerFile :=
  download_all_or_nothing failingDownloadWorld cleanDisk
    (Error.other "download failed") (by decide)

/-- C4: change sensitivity — when the stored manifest's requirement map
differs from the current one at some package name (a name present in only
one, or mapped to different constraints), `get_manifest` never reuses the
stored manifest: it performs a fresh resolution, and the resolution
(`resolve_versions`, whose arguments are only the environment, the mode
and the config) does not receive the stored manifest's locked versions as
input. -/
theorem get_manifest_change_sensitive :
    ∀ (w : World) (d : DiskState) (mode : Mode) (config : PackageConfig)
      (stored : Manifest) (reqs : List (Name × Range)),
      d.manifestFile = some (Except.ok stored) →
      config.all_dependencies = Except.ok reqs →
      (stored.requirements.map Prod.fst).Nodup →
      (reqs.map Prod.fst).Nodup →
      (∃ n, stored.requirements.lookup n ≠ reqs.lookup n) →
      get_manifest w d mode config = resolve_versions w mode config := by
  intro w d mode config stored reqs hfile hdeps nd1 nd2 hne
  have hfalse : hashMapEq stored.requirements reqs = false := by
    obtain ⟨n, hn⟩ := hne
    by_contra hcon
    rw [Bool.not_eq_false] at hcon
    exact hn ((hashMapEq_eq_true_iff nd1 nd2).mp hcon n)
  unfold get_manifest
  rw [hfile]
  simp [Manifest.read_from_disc, hfile, hdeps, hfalse]

/-- C4 witness: a stored manifest requiring `local1` against a config with
no requirements triggers a fresh resolution. -/
theorem get_manifest_change_sensitive_witness :
    get_manifest idleWorld storedDisk Mode.dev changedConfig =
      resolve_versions idleWorld Mode.dev changedConfig :=
  get_manifest_change_sensitive idleWorld storedDisk Mode.dev changedConfig
    demoStored [] (by decide) (by decide) (by decide) (by decide)
    ⟨"local1", by decide⟩

/-- C5: reuse on structural equality and unconditional resolution on a
cache miss — if the manifest file exists, parses to `stored`, and
`stored.requirements` agrees with the freshly computed requirement set at
every name, `get_manifest` returns `stored` unmodified for every
environment `w` (so no solver invocation and no registry lookup can
influence the result); and if no manifest file exists, `get_manifest` is
exactly a fresh resolution. -/
theorem get_manifest_reuse_and_miss :
    (∀ (w : World) (d : DiskState) (mode : Mode) (config : PackageConfig)
        (stored : Manifest) (reqs : List (Name × Range)),
        d.manifestFile = some (Except.ok stored) →
        config.all_dependencies = Except.ok reqs →
        (stored.requirements.map Prod.fst).Nodup →
        (reqs.map Prod.fst).Nodup →
        (∀ n, stored.requirements.lookup n = reqs.lookup n) →
        get_manifest w d mode config = Except.ok stored)
    ∧ (∀ (w : World) (d : DiskState) (mode : Mode) (config : PackageConfig),
        d.manifestFile = none →
        get_manifest w d mode config = resolve_versions w mode config) := by
  constructor
  · intro w d mode config stored reqs hfile hdeps nd1 nd2 heq
    have htrue : hashMapEq stored.requirements reqs = true :=
      (hashMapEq_eq_true_iff nd1 nd2).mpr heq
    unfold get_manifest
    rw [hfile]
    simp [Manifest.read_from_disc, hfile, hdeps, htrue]
  · intro w d mode config hfile
    unfold get_manifest
    rw [hfile]

/-- C5 witness: with the stored manifest's requirements equal to the
config's, the stored manifest is reused verbatim — even in a world whose
downloader would fail — and on an empty disk the result is a fresh
resolution. -/
theorem get_manifest_reuse_and_miss_witness :
    get_manifest failingDownloadWorld storedDisk Mode.dev matchingConfig =
      Except.ok demoStored
    ∧ get_manifest failingDownloadWorld cleanDisk Mode.dev matchingConfig =
      resolve_versions failingDownloadWorld Mode.dev matchingConfig :=
  ⟨get_manifest_reuse_and_miss.1 failingDownloadWorld storedDisk Mode.dev
      matchingConfig demoStored demoReqs (by decide) (by decide) (by decide)
      (by decide) (fun _ => rfl),
    get_manifest_reuse_and_miss.2 failingDownloadWorld cleanDisk Mode.dev
      matchingConfig (by decide)⟩

/-- C6 counterexample: the ledger holds `local2 ↦ 2.0.0`, the manifest
`local2 ↦ 3.0.0`, and the single on-disk directory for `local2` —
`build_deps_package "local2"`, the name-keyed location where version
`3.0.0` is (or would be) materialized — exists.  Pruning the stale pair
`(local2, 2.0.0)` deletes exactly that directory: the deletion target is
not keyed by the exact `(name, version)` pair, and the location of the
different version `3.0.0` of the same package is precisely what gets
deleted. -/
theorem prune_target_counterexample :
    Version.mk "2.0.0" ≠ Version.mk "3.0.0"
    ∧ (LocalPackages.mk [("local2", ⟨"2.0.0"⟩)]).extra_local_packages
        localTwoManifest = [("local2", "2.0.0")]
    ∧ (remove_extra_packages localTwoDisk localTwoManifest).1.dirs = []
    ∧ (remove_extra_packages localTwoDisk localTwoManifest).2 = Except.ok () := by
  decide

/-- C6 (amended): for every stale pair `(name, version)` selected by the
pruning diff, the directory deleted is `paths::build_deps_package(name)` —
keyed by the package name alone, independent of `version`; since a ledger
maps each name to at most one version, each stale name's single directory
is deleted, and that directory is also the on-disk location of any other
version of the same package. -/
theorem prune_target_name_keyed :
    ∀ (d : DiskState) (package : Name) (version : String)
      (rest : List (Name × String)),
      build_deps_package package ∈ d.dirs →
      build_deps_package package ∉ d.failingDeletes →
      remove_extra_packages_loop d ((package, version) :: rest) =
        remove_extra_packages_loop
          { d with dirs := d.dirs.filter (fun q => q ≠ build_deps_package package) }
          rest := by
  intro d package version rest hdir hfail
  simp [remove_extra_packages_loop, hdir, delete_dir, hfail]

/-- C6 witness: processing the stale entry `(local2, 2.0.0)` on
`localTwoDisk` deletes the name-keyed directory of `local2`. -/
theorem prune_target_name_keyed_witness :
    remove_extra_packages_loop localTwoDisk [("local2", "2.0.0")] =
      remove_extra_packages_loop
        { localTwoDisk with
            dirs := localTwoDisk.dirs.filter
              (fun q => q ≠ build_deps_package "local2") }
        [] :=
  prune_target_name_keyed localTwoDisk "local2" "2.0.0" [] (by decide) (by decide)

/-- C7: a record file that exists but fails to parse is a fatal error, not
treated as absent or defaulted: `Manifest::read_from_disc` and
`LocalPackages::read` both return `Error::FileIo` carrying the file path,
the `Parse` action and the parser's message, and the error propagates —
through `get_manifest` (aborting the decision) and through
`remove_extra_packages` (aborting the cycle, with no deletion done). -/
theorem parse_failure_fatal :
    (∀ (d : DiskState) (msg : String) (w : World) (mode : Mode)
        (config : PackageConfig),
        d.manifestFile = some (Except.error msg) →
        Manifest.read_from_disc d = Except.error
          (Error.fileIo FileIoAction.parse FileKind.file manifest_path (some msg))
        ∧ get_manifest w d mode config = Except.error
          (Error.fileIo FileIoAction.parse FileKind.file manifest_path (some msg)))
    ∧ (∀ (d : DiskState) (msg : String) (manifest : Manifest),
        d.ledgerFile = some (Except.error msg) →
        LocalPackages.read d = Except.error
          (Error.fileIo FileIoAction.parse FileKind.file packages_toml (some msg))
        ∧ remove_extra_packages d manifest = (d, Except.error
          (Error.fileIo FileIoAction.parse FileKind.file packages_toml (some msg)))) := by
  constructor
  · intro d msg w mode config hfile
    have hread : Manifest.read_from_disc d = Except.error
        (Error.fileIo FileIoAction.parse FileKind.file manifest_path (some msg)) := by
      simp [Manifest.read_from_disc, hfile]
    refine ⟨hread, ?_⟩
    unfold get_manifest
    rw [hfile]
    simp [hread]
  · intro d msg manifest hfile
    have hread : LocalPackages.read d = Except.error
        (Error.fileIo FileIoAction.parse FileKind.file packages_toml (some msg)) := by
      simp [LocalPackages.read, hfile]
    refine ⟨hread, ?_⟩
    simp [remove_extra_packages, hread]

/-- C7 witness: a malformed manifest file and a malformed ledger file each
abort with the parse error carrying the path and the message. -/
theorem parse_failure_fatal_witness :
    get_manifest idleWorld badManifestDisk Mode.dev matchingConfig = Except.error
      (Error.fileIo FileIoAction.parse FileKind.file manifest_path
        (some "unexpected eof"))
    ∧ remove_extra_packages badLedgerDisk emptyManifest =
      (badLedgerDisk, Except.error
        (Error.fileIo FileIoAction.parse FileKind.file packages_toml
          (some "unexpected eof"))) :=
  ⟨(parse_failure_fatal.1 badManifestDisk "unexpected eof" idleWorld Mode.dev
      matchingConfig (by decide)).2,
    (parse_failure_fatal.2 badLedgerDisk "unexpected eof" emptyManifest
      (by decide)).2⟩

/-- C8: the persisted ledger is exactly the `packages` mapping of the
manifest written in the same cycle — `LocalPackages::from_manifest` keeps
`packages` and drops `requirements` — and after any successful `download`
the disk holds a manifest `m` together with the ledger
`from_manifest m`, whose `packages` equal `m.packages`. -/
theorem ledger_from_manifest :
    (∀ manifest : Manifest,
        (LocalPackages.from_manifest manifest).packages = manifest.packages)
    ∧ (∀ (w : World) (d d2 : DiskState) (count : Nat),
        download w d = (d2, Except.ok count) →
        ∃ manifest : Manifest,
          d2.manifestFile = some (Except.ok manifest) ∧
          d2.ledgerFile = some (Except.ok (LocalPackages.from_manifest manifest)) ∧
          (LocalPackages.from_manifest manifest).packages = manifest.packages) := by
  constructor
  · intro manifest
    rfl
  · intro w d d2 count h
    cases hcfg : w.rootConfig with
    | error e => simp [download, hcfg] at h
    | ok config =>
      cases hman : get_manifest w d Mode.dev config with
      | error e => simp [download, hcfg, hman] at h
      | ok manifest =>
        rcases hrem : remove_extra_packages d manifest with ⟨d3, r⟩
        cases r with
        | error e => simp [download, hcfg, hman, hrem] at h
        | ok u =>
          cases u
          cases hdl : w.downloadHexPackages manifest.packages config.name with
          | error e => simp [download, hcfg, hman, hrem, hdl] at h
          | ok c =>
            simp only [download, hcfg, hman, hrem, hdl, Prod.mk.injEq] at h
            obtain ⟨hd2, hcount⟩ := h
            subst hd2
            exact ⟨manifest, rfl, rfl, rfl⟩

/-- C8 witness: a fully successful cycle persists the resolved manifest
and the ledger derived from it. -/
theorem ledger_from_manifest_witness :
    ∃ manifest : Manifest,
      (download successWorld cleanDisk).1.manifestFile =
        some (Except.ok manifest) ∧
      (download successWorld cleanDisk).1.ledgerFile =
        some (Except.ok (LocalPackages.from_manifest manifest)) ∧
      (LocalPackages.from_manifest manifest).packages = manifest.packages :=
  ledger_from_manifest.2 successWorld cleanDisk
    (download successWorld cleanDisk).1 1 (by decide)

/-- C9: a missing ledger file is not an error — `LocalPackages::read`
returns `Ok(None)`, and the pruning phase deletes nothing and succeeds, so
`download` proceeds to acquisition with the disk untouched. -/
theorem missing_ledger_not_error :
    ∀ (d : DiskState) (manifest : Manifest),
      d.ledgerFile = none →
      LocalPackages.read d = Except.ok none ∧
      remove_extra_packages d manifest = (d, Except.ok ()) := by
  intro d manifest h
  have hread : LocalPackages.read d = Except.ok none := by
    simp [LocalPackages.read, h]
  exact ⟨hread, by simp [remove_extra_packages, hread]⟩

/-- C9 witness: a disk with no ledger file prunes nothing and succeeds. -/
theorem missing_ledger_not_error_witness :
    LocalPackages.read cleanDisk = Except.ok none ∧
    remove_extra_packages cleanDisk specManifest = (cleanDisk, Except.ok ()) :=
  missing_ledger_not_error cleanDisk specManifest (by decide)

/-- C10: pruning attempts a deletion only when the target directory
exists: a stale entry whose directory is absent is skipped with no error
and no state change, and processing continues with the remaining entries
exactly as if the entry were not there — even if deleting that path would
have failed. -/
theorem prune_skips_absent_dir :
    ∀ (d : DiskState) (package : Name) (version : String)
      (rest : List (Name × String)),
      build_deps_package package ∉ d.dirs →
      remove_extra_packages_loop d ((package, version) :: rest) =
        remove_extra_packages_loop d rest := by
  intro d package version rest hdir
  simp [remove_extra_packages_loop, hdir]

/-- C10 witness: on a disk with no directories (and where deletion of the
entry's path would even be failing), the stale entry `(aaa, 1.0.0)` is
skipped and the loop succeeds with the disk unchanged. -/
theorem prune_skips_absent_dir_witness :
    remove_extra_packages_loop
      (DiskState.mk none none [] [build_deps_package "aaa"])
      [("aaa", "1.0.0")] =
      remove_extra_packages_loop
        (DiskState.mk none none [] [build_deps_package "aaa"]) [] :=
  prune_skips_absent_dir (DiskState.mk none none [] [build_deps_package "aaa"])
    "aaa" "1.0.0" [] (by decide)
